import Mathlib

/-!
# A verification model of the jumbo file system (src/jumbo_file_system.c)

The C code implements a single-directory-cursor file system on top of a
block store (`bfs_*`).  We embed the code shallowly:

* a `Block` is the tagged on-disk union (`struct block`): a directory node,
  an inode, or raw data bytes (a data block is written as a raw
  `BLOCK_SIZE`-byte buffer);
* the block store is an association list from block handles to blocks,
  plus a free list; `allocate_block` pops the head of the free list and
  returns the sentinel `0` when the store is exhausted, `release_block`
  appends the handle to the free list; this matches the external contract
  in the spec (the store itself is not part of src/);
* the configuration constants (`BLOCK_SIZE`, ...) live in the missing
  header `jumbo_file_system.h`, so they are kept abstract in a `Config`
  record; spec constraints (`MAX_FILE_SIZE ≤ MAX_DATA_BLOCKS * BLOCK_SIZE`,
  `0 < BLOCK_SIZE`) appear as hypotheses where needed;
* each `jfs_*` function is translated match-by-match from the C source;
  error paths return the error code together with the store state at the
  moment of the `return`, so resource-leak properties are expressible.

Machine integers (`unsigned short`, `uint32_t`) are modelled as `Nat`:
all quantities in the claims are bounded by `MAX_FILE_SIZE` well below
any overflow, and the one place the C code underflows
(`(file_size - 1) / BLOCK_SIZE` at `file_size == 0`) is only evaluated
under a guard that makes the value irrelevant, in C and in the model alike.
-/

namespace Jfs

/-- Configuration constants from `jumbo_file_system.h` (not in src/). -/
structure Config where
  BLOCK_SIZE : Nat
  MAX_NAME_LENGTH : Nat
  MAX_DIR_ENTRIES : Nat
  MAX_DATA_BLOCKS : Nat
  MAX_FILE_SIZE : Nat
deriving DecidableEq, Repr

/-- One directory entry: a name and the handle of the target block. -/
structure DirEntry where
  name : String
  block_num : Nat
deriving DecidableEq, Repr

/-- A directory node: the `entries[0..num_entries)` prefix of the on-disk
array, kept as a list (`num_entries` is the list length). -/
structure DirNode where
  entries : List DirEntry
deriving DecidableEq, Repr

/-- An inode: byte length plus the fixed `data_blocks[MAX_DATA_BLOCKS]`
array of data-block handles (`0` = unused slot). -/
structure Inode where
  file_size : Nat
  data_blocks : List Nat
deriving DecidableEq, Repr

/-- The tagged on-disk block (`struct block`): `is_dir` tag selects the
directory-node or inode view; a data block written by `jfs_write` is raw
bytes. -/
inductive Block where
  | dir (node : DirNode)
  | file (ino : Inode)
  | data (bytes : List Nat)
deriving DecidableEq, Repr

/-- Reading the union member `contents.dirnode`; garbage for non-directory
blocks (never hit in well-formed states in the C code either). -/
def Block.dirnodeOf : Block → DirNode
  | .dir node => node
  | _ => ⟨[]⟩

/-- Reading the union member `contents.inode`. -/
def Block.inodeOf : Block → Inode
  | .file ino => ino
  | _ => ⟨0, []⟩

/-- Reading a block as a raw byte buffer. -/
def Block.dataOf : Block → List Nat
  | .data bytes => bytes
  | _ => []

/-- The `is_dir == IS_DIR` tag test. -/
def Block.isDirTag : Block → Bool
  | .dir _ => true
  | _ => false

/-- Error codes of jumbo_file_system.h (E_SUCCESS is `.ok ()`). -/
inductive JfsErr where
  | eUnknown
  | eExists
  | eMaxNameLength
  | eMaxDirEntries
  | eDiskFull
  | eNotExists
  | eNotDir
  | eNotEmpty
  | eIsDir
  | eMaxFileSize
deriving DecidableEq, Repr

/-- The whole machine state: the block store contents (association list
handle ↦ block), the store's free list (allocation order; head is the next
handle `allocate_block` returns), and the `current_dir` cursor. -/
structure FS where
  blocks : List (Nat × Block)
  freeList : List Nat
  cur : Nat
deriving DecidableEq, Repr

/-- Association-list lookup for the block store. -/
def assocFind (l : List (Nat × Block)) (h : Nat) : Option Block :=
  match l with
  | [] => none
  | (k, v) :: rest => if k = h then some v else assocFind rest h

/-- Association-list update (insert-or-replace) for the block store. -/
def assocSet (l : List (Nat × Block)) (h : Nat) (b : Block) :
    List (Nat × Block) :=
  match l with
  | [] => [(h, b)]
  | (k, v) :: rest =>
      if k = h then (h, b) :: rest else (k, v) :: assocSet rest h b

/-- `read_block`: succeeds iff the handle holds a block in the store. -/
def readBlock (fs : FS) (h : Nat) : Option Block :=
  assocFind fs.blocks h

/-- `write_block`: total in the model (a real I/O failure maps to
`E_UNKNOWN` in the C code; the model's store never fails a write). -/
def writeBlock (fs : FS) (h : Nat) (b : Block) : FS :=
  { fs with blocks := assocSet fs.blocks h b }

/-- `allocate_block`: pops the free list, `0` signals exhaustion. -/
def allocateBlock (fs : FS) : Nat × FS :=
  match fs.freeList with
  | [] => (0, fs)
  | h :: rest => (h, { fs with freeList := rest })

/-- `release_block`: returns the handle to the free pool. -/
def releaseBlock (fs : FS) (h : Nat) : FS :=
  { fs with freeList := fs.freeList ++ [h] }

/-- The helper `is_dir` of the C file: read the block, `FALSE` on read
failure, else test the tag. -/
def is_dir (fs : FS) (h : Nat) : Bool :=
  match readBlock fs h with
  | none => false
  | some b => b.isDirTag

/-- The entry-search loop (`strcmp(entries[i].name, name) == 0`),
returning the index of the first match. -/
def findEntryIdx (name : String) : List DirEntry → Option Nat
  | [] => none
  | e :: rest =>
      if e.name = name then some 0
      else (findEntryIdx name rest).map (· + 1)

/-- `entries[i]` (in-bounds in every reachable use). -/
def entryAt (entries : List DirEntry) (i : Nat) : DirEntry :=
  entries.getD i ⟨"", 0⟩

/-- Ceiling division `(a + b - 1) / b`, the idiom the C code uses for
`blocks_needed`, `block_used` and `num_data_blocks`. -/
def cdiv (a b : Nat) : Nat := (a + b - 1) / b

/-- Zero-pad a byte list on the right to length `n` (the effect of
`memset(.., 0, ..)` before a partial `memcpy`). -/
def padTo (n : Nat) (l : List Nat) : List Nat :=
  l ++ List.replicate (n - l.length) 0

/-! ## jfs_chdir (src lines 148–185) -/

/-- `jfs_chdir`: `none` resets the cursor to the root handle 1; otherwise
resolve the name in the current directory, fail `E_NOT_EXISTS` or
`E_NOT_DIR`, and reassign the cursor only on success. -/
def jfs_chdir (fs : FS) (directory_name : Option String) :
    Except JfsErr Unit × FS :=
  match directory_name with
  | none => (.ok (), { fs with cur := 1 })
  | some name =>
    match readBlock fs fs.cur with
    | none => (.error .eUnknown, fs)
    | some curBlk =>
      match findEntryIdx name curBlk.dirnodeOf.entries with
      | none => (.error .eNotExists, fs)
      | some idx =>
        let target := (entryAt curBlk.dirnodeOf.entries idx).block_num
        if is_dir fs target then (.ok (), { fs with cur := target })
        else (.error .eNotDir, fs)

/-! ## jfs_creat (src lines 318–387) -/

/-- `jfs_creat`: length check, existence check, capacity check, then
allocate and persist a fresh empty inode and append the entry to the
current directory. -/
def jfs_creat (cfg : Config) (fs : FS) (file_name : String) :
    Except JfsErr Unit × FS :=
  if cfg.MAX_NAME_LENGTH < file_name.length then (.error .eMaxNameLength, fs)
  else
    match readBlock fs fs.cur with
    | none => (.error .eUnknown, fs)
    | some curBlk =>
      let node := curBlk.dirnodeOf
      match findEntryIdx file_name node.entries with
      | some _ => (.error .eExists, fs)
      | none =>
        if cfg.MAX_DIR_ENTRIES ≤ node.entries.length then
          (.error .eMaxDirEntries, fs)
        else
          match allocateBlock fs with
          | (inode_block_num, fs1) =>
            if inode_block_num = 0 then (.error .eDiskFull, fs1)
            else
              let inodeBlk : Block :=
                .file ⟨0, List.replicate cfg.MAX_DATA_BLOCKS 0⟩
              let fs2 := writeBlock fs1 inode_block_num inodeBlk
              let node' : DirNode :=
                ⟨node.entries ++ [⟨file_name, inode_block_num⟩]⟩
              (.ok (), writeBlock fs2 fs.cur (.dir node'))

/-! ## jfs_rmdir (src lines 249–310) -/

/-- `jfs_rmdir`: resolve the name, require a directory tag, require the
target empty, release the target block, erase the entry (the C shift loop
`entries[j] = entries[j+1]` followed by `num_entries--` is `eraseIdx`),
and persist the current directory. -/
def jfs_rmdir (fs : FS) (directory_name : String) :
    Except JfsErr Unit × FS :=
  match readBlock fs fs.cur with
  | none => (.error .eUnknown, fs)
  | some curBlk =>
    let node := curBlk.dirnodeOf
    match findEntryIdx directory_name node.entries with
    | none => (.error .eNotExists, fs)
    | some idx =>
      let target := (entryAt node.entries idx).block_num
      if ¬ is_dir fs target then (.error .eNotDir, fs)
      else
        match readBlock fs target with
        | none => (.error .eUnknown, fs)
        | some dirBlk =>
          if 0 < dirBlk.dirnodeOf.entries.length then (.error .eNotEmpty, fs)
          else
            let fs1 := releaseBlock fs target
            let node' : DirNode := ⟨node.entries.eraseIdx idx⟩
            (.ok (), writeBlock fs1 fs.cur (.dir node'))

/-! ## jfs_remove (src lines 396–471) -/

/-- `jfs_remove`: resolve the name, require a file tag, release the data
blocks (the loop `i < MAX_DATA_BLOCKS && data_blocks[i] != 0` stops at the
first zero sentinel and at the array bound), release the inode block,
erase the entry, and persist the current directory. -/
def jfs_remove (cfg : Config) (fs : FS) (file_name : String) :
    Except JfsErr Unit × FS :=
  match readBlock fs fs.cur with
  | none => (.error .eUnknown, fs)
  | some curBlk =>
    let node := curBlk.dirnodeOf
    match findEntryIdx file_name node.entries with
    | none => (.error .eNotExists, fs)
    | some idx =>
      let inode_block_num := (entryAt node.entries idx).block_num
      match readBlock fs inode_block_num with
      | none => (.error .eUnknown, fs)
      | some inodeBlk =>
        if inodeBlk.isDirTag then (.error .eIsDir, fs)
        else
          let populated :=
            (inodeBlk.inodeOf.data_blocks.take cfg.MAX_DATA_BLOCKS).takeWhile
              (fun h => h ≠ 0)
          let fs1 := populated.foldl releaseBlock fs
          let fs2 := releaseBlock fs1 inode_block_num
          let node' : DirNode := ⟨node.entries.eraseIdx idx⟩
          (.ok (), writeBlock fs2 fs.cur (.dir node'))

/-! ## jfs_stat (src lines 481–541) -/

/-- The record filled by `jfs_stat` (`struct stats`). -/
structure Stats where
  name : String
  block_num : Nat
  is_dir : Bool
  file_size : Nat
  num_data_blocks : Nat
deriving DecidableEq, Repr

/-- `jfs_stat`: resolve the name; directories report size 0 and no data
blocks; files report `(file_size - 1) / BLOCK_SIZE + 1` data blocks when
`file_size > 0`, else 0. -/
def jfs_stat (cfg : Config) (fs : FS) (name : String) :
    Except JfsErr Stats × FS :=
  match readBlock fs fs.cur with
  | none => (.error .eUnknown, fs)
  | some curBlk =>
    match findEntryIdx name curBlk.dirnodeOf.entries with
    | none => (.error .eNotExists, fs)
    | some idx =>
      let entry_block_num := (entryAt curBlk.dirnodeOf.entries idx).block_num
      match readBlock fs entry_block_num with
      | none => (.error .eUnknown, fs)
      | some entryBlk =>
        if entryBlk.isDirTag then
          (.ok ⟨name, entry_block_num, true, 0, 0⟩, fs)
        else
          let sz := entryBlk.inodeOf.file_size
          (.ok ⟨name, entry_block_num, false, sz,
                if 0 < sz then (sz - 1) / cfg.BLOCK_SIZE + 1 else 0⟩, fs)

/-! ## jfs_write (src lines 543–724) -/

/-- The allocation loop of `jfs_write` (src lines 640–657): allocate `k`
blocks one at a time; if `allocate_block` returns the sentinel 0, release
the blocks allocated so far (in allocation order) and fail. `acc` holds
the handles allocated so far, in order. -/
def allocBlocks (fs : FS) (k : Nat) (acc : List Nat) :
    Option (List Nat) × FS :=
  match k with
  | 0 => (some acc, fs)
  | Nat.succ k' =>
    match allocateBlock fs with
    | (h, fs1) =>
      if h = 0 then (none, acc.foldl releaseBlock fs1)
      else allocBlocks fs1 k' (acc ++ [h])

/-- The chunk-writing loop of `jfs_write` (src lines 660–699): the i-th
allocated block receives `MIN(write_size - bytes_written, BLOCK_SIZE)`
bytes from offset `bytes_written` of the append buffer, zero-padded to a
full block (`memset` + `memcpy`).  `write_block` and the scratch `malloc`
cannot fail in the model, so the loop always completes. -/
def writeChunks (bs : Nat) (fs : FS) (handles : List Nat)
    (ab : List Nat) : FS :=
  match handles with
  | [] => fs
  | h :: rest =>
      writeChunks bs (writeBlock fs h (.data (padTo bs (ab.take bs)))) rest
        (ab.drop bs)

/-- The inode-update loop of `jfs_write` (src lines 702–705):
`data_blocks[i] = data_block_nums[i]` for `i` in
`[next_start_position, next_start_position + blocks_needed)`. -/
def updateSlots (dbs : List Nat) (pos : Nat) (hs : List Nat) :
    List Nat :=
  match hs with
  | [] => dbs
  | h :: rest => updateSlots (dbs.set pos h) (pos + 1) rest

/-- The tail of `jfs_write` after the append buffer is prepared (src
lines 627–724): compute `write_size`, `blocks_needed` and
`next_start_position`, allocate, write the chunks, then update and
persist the inode.  `append_buffer` has length
`count + append_position` by construction of the caller.

Modelling caveat: the C code stores the allocated handles in a local VLA
`block_num_t data_block_nums[blocks_needed]` (src line 640) that all
three loops index at `next_start_position + k` (src lines 641, 661, 702);
this model keeps the handles in a zero-indexed list instead, so it
assigns a benign, defined meaning to index values that in C are out of
the VLA's bounds whenever `next_start_position > 0` (that is, whenever
the file already holds at least one complete data block).  The true index
arithmetic of those loops is recorded separately by `writeBlocksNeeded`
and `writeIndexList`, which expose the out-of-bounds accesses. -/
def jfs_writeTail (cfg : Config) (fs : FS) (inode_block_num : Nat)
    (ino : Inode) (append_position : Nat) (append_buffer : List Nat) :
    Except JfsErr Unit × FS :=
  let write_size := append_buffer.length
  let blocks_needed := (write_size + cfg.BLOCK_SIZE - 1) / cfg.BLOCK_SIZE
  let next_start_position :=
    if ino.file_size = 0 then 0
    else if append_position = 0 then ino.file_size / cfg.BLOCK_SIZE
    else (ino.file_size + cfg.BLOCK_SIZE - 1) / cfg.BLOCK_SIZE - 1
  match allocBlocks fs blocks_needed [] with
  | (none, fs') => (.error .eDiskFull, fs')
  | (some handles, fs') =>
    let fs'' := writeChunks cfg.BLOCK_SIZE fs' handles append_buffer
    let newIno : Inode :=
      ⟨ino.file_size + (write_size - append_position),
       updateSlots ino.data_blocks next_start_position handles⟩
    (.ok (), writeBlock fs'' inode_block_num (.file newIno))

/-- `jfs_write`: resolve the name, require a file tag, reject writes past
`MAX_FILE_SIZE`; when the file ends mid-block, read the last data block
back, merge the new bytes at `append_position` into a zero-initialised
scratch buffer, and release the old last block; then run the tail
(allocate / write chunks / update inode). -/
def jfs_write (cfg : Config) (fs : FS) (file_name : String)
    (buf : List Nat) : Except JfsErr Unit × FS :=
  match readBlock fs fs.cur with
  | none => (.error .eUnknown, fs)
  | some curBlk =>
    let node := curBlk.dirnodeOf
    match findEntryIdx file_name node.entries with
    | none => (.error .eNotExists, fs)
    | some idx =>
      let inode_block_num := (entryAt node.entries idx).block_num
      match readBlock fs inode_block_num with
      | none => (.error .eUnknown, fs)
      | some inodeBlk =>
        if inodeBlk.isDirTag then (.error .eIsDir, fs)
        else
          let ino := inodeBlk.inodeOf
          if cfg.MAX_FILE_SIZE < ino.file_size + buf.length then
            (.error .eMaxFileSize, fs)
          else
            let append_position := ino.file_size % cfg.BLOCK_SIZE
            let last_block_num := (ino.file_size - 1) / cfg.BLOCK_SIZE
            if 0 < append_position ∧ 0 < ino.file_size then
              match readBlock fs (ino.data_blocks.getD last_block_num 0) with
              | none => (.error .eUnknown, fs)
              | some lastBlk =>
                let append_buffer :=
                  padTo append_position
                    (lastBlk.dataOf.take append_position) ++ buf
                let fs1 :=
                  releaseBlock fs (ino.data_blocks.getD last_block_num 0)
                jfs_writeTail cfg fs1 inode_block_num ino append_position
                  append_buffer
            else
              jfs_writeTail cfg fs inode_block_num ino 0 buf

/-- The number of newly needed blocks in `jfs_write` (src line 630):
`blocks_needed = (write_size + BLOCK_SIZE - 1) / BLOCK_SIZE` with
`write_size = count + append_position`.  This is the declared size of the
local VLA `block_num_t data_block_nums[blocks_needed]`. -/
def writeBlocksNeeded (cfg : Config) (file_size count : Nat) : Nat :=
  let append_position := file_size % cfg.BLOCK_SIZE
  let write_size := count + append_position
  (write_size + cfg.BLOCK_SIZE - 1) / cfg.BLOCK_SIZE

/-- The list of indices `i` with which `jfs_write` accesses the local
array `data_block_nums` (src lines 641, 661, 702): the loops run `i` from
`next_start_position` to `next_start_position + blocks_needed - 1`. -/
def writeIndexList (cfg : Config) (file_size count : Nat) : List Nat :=
  let append_position := file_size % cfg.BLOCK_SIZE
  let next_start_position :=
    if file_size = 0 then 0
    else if append_position = 0 then file_size / cfg.BLOCK_SIZE
    else (file_size + cfg.BLOCK_SIZE - 1) / cfg.BLOCK_SIZE - 1
  List.range' next_start_position (writeBlocksNeeded cfg file_size count)

/-! ## jfs_read (src lines 740–822) -/

/-- The block-reading loop of `jfs_read` (src lines 798–814): for each of
the first `block_used` data-block handles, read the block and append its
first `MIN(bytes_to_read - bytes_have_read, BLOCK_SIZE)` bytes. -/
def readLoop (bs : Nat) (fs : FS) (handles : List Nat)
    (remaining : Nat) : Option (List Nat) :=
  match handles with
  | [] => some []
  | h :: rest =>
    match readBlock fs h with
    | none => none
    | some blk =>
      let bytes_this_block := min remaining bs
      match readLoop bs fs rest (remaining - bytes_this_block) with
      | none => none
      | some tail => some (blk.dataOf.take bytes_this_block ++ tail)

/-- `jfs_read`: resolve the name, require a file tag, compute
`bytes_to_read = min(file_size, max_bytes)`, read the covering prefix of
data blocks and concatenate; returns the byte count (the loop counter
`bytes_have_read` always sums to `bytes_to_read`) and the bytes.  The
function performs no writes, so the state component is returned
unchanged. -/
def jfs_read (cfg : Config) (fs : FS) (file_name : String)
    (max_bytes : Nat) : Except JfsErr (Nat × List Nat) × FS :=
  match readBlock fs fs.cur with
  | none => (.error .eUnknown, fs)
  | some curBlk =>
    match findEntryIdx file_name curBlk.dirnodeOf.entries with
    | none => (.error .eNotExists, fs)
    | some idx =>
      let inode_block_num := (entryAt curBlk.dirnodeOf.entries idx).block_num
      match readBlock fs inode_block_num with
      | none => (.error .eUnknown, fs)
      | some inodeBlk =>
        if inodeBlk.isDirTag then (.error .eIsDir, fs)
        else
          let ino := inodeBlk.inodeOf
          let bytes_to_read := min ino.file_size max_bytes
          let block_used :=
            (bytes_to_read + cfg.BLOCK_SIZE - 1) / cfg.BLOCK_SIZE
          let handles :=
            (List.range block_used).map (fun i => ino.data_blocks.getD i 0)
          match readLoop cfg.BLOCK_SIZE fs handles bytes_to_read with
          | none => (.error .eUnknown, fs)
          | some bytes => (.ok (bytes_to_read, bytes), fs)

/-- A freshly mounted store: the root directory pre-initialised at handle
1 (the mount step is external), an empty root, and `n` further free
handles `2, 3, ..., n + 1`. -/
def freshFS (n : Nat) : FS :=
  { blocks := [(1, .dir ⟨[]⟩)], freeList := List.range' 2 n, cur := 1 }

deriving instance DecidableEq for Except

/-! ## Block-store lemmas -/

theorem assocFind_assocSet (l : List (Nat × Block)) (h h' : Nat)
    (b : Block) :
    assocFind (assocSet l h b) h' = if h = h' then some b else assocFind l h' := by
  induction l with
  | nil => simp only [assocSet, assocFind]
  | cons kv rest ih =>
    obtain ⟨k, v⟩ := kv
    by_cases hk : k = h
    · subst hk
      simp only [assocSet, if_pos rfl, assocFind]
      by_cases hk' : k = h' <;> simp [hk']
    · simp only [assocSet, if_neg hk, assocFind, ih]
      by_cases hk' : k = h'
      · subst hk'
        have hne : h ≠ k := fun hh => hk hh.symm
        simp [hne]
      · simp [hk']

theorem readBlock_writeBlock (fs : FS) (h h' : Nat) (b : Block) :
    readBlock (writeBlock fs h b) h'
      = if h = h' then some b else readBlock fs h' :=
  assocFind_assocSet fs.blocks h h' b

theorem readBlock_writeBlock_self (fs : FS) (h : Nat) (b : Block) :
    readBlock (writeBlock fs h b) h = some b := by
  rw [readBlock_writeBlock, if_pos rfl]

theorem readBlock_writeBlock_ne (fs : FS) (h h' : Nat) (b : Block)
    (hne : h ≠ h') :
    readBlock (writeBlock fs h b) h' = readBlock fs h' := by
  rw [readBlock_writeBlock, if_neg hne]

theorem writeBlock_cur (fs : FS) (h : Nat) (b : Block) :
    (writeBlock fs h b).cur = fs.cur := rfl

theorem writeBlock_freeList (fs : FS) (h : Nat) (b : Block) :
    (writeBlock fs h b).freeList = fs.freeList := rfl

theorem readBlock_releaseBlock (fs : FS) (h h' : Nat) :
    readBlock (releaseBlock fs h) h' = readBlock fs h' := rfl

theorem foldl_releaseBlock (hs : List Nat) (fs : FS) :
    hs.foldl releaseBlock fs = { fs with freeList := fs.freeList ++ hs } := by
  induction hs generalizing fs with
  | nil => simp
  | cons h rest ih =>
    simp only [List.foldl_cons, ih, releaseBlock, List.append_assoc,
      List.singleton_append]

/-! ## Ceiling-division lemmas -/

theorem cdiv_zero (b : Nat) : cdiv 0 b = 0 := by
  cases b with
  | zero => rfl
  | succ m =>
    simp only [cdiv, Nat.zero_add]
    exact Nat.div_eq_of_lt (by omega)

theorem cdiv_eq_one (b r : Nat) (hb : 0 < b) (h1 : 0 < r) (h2 : r ≤ b) :
    cdiv r b = 1 := by
  have he : r + b - 1 = (r - 1) + b := by omega
  simp only [cdiv, he, Nat.add_div_right _ hb,
    Nat.div_eq_of_lt (by omega : r - 1 < b)]

theorem cdiv_mul_add (b q s : Nat) (hb : 0 < b) :
    cdiv (q * b + s) b = q + cdiv s b := by
  have he : q * b + s + b - 1 = (s + b - 1) + b * q := by
    rw [Nat.add_assoc, Nat.add_sub_assoc (by omega : 1 ≤ s + b),
      Nat.add_comm (q * b), Nat.mul_comm q b, Nat.add_sub_assoc (by omega)]
  simp only [cdiv, he, Nat.add_mul_div_left _ _ hb]
  omega

theorem cdiv_pos (b r : Nat) (hb : 0 < b) (hr : 0 < r) : 0 < cdiv r b := by
  have : cdiv 1 b ≤ cdiv r b := Nat.div_le_div_right (by omega)
  have h1 : cdiv 1 b = 1 := cdiv_eq_one b 1 hb (by omega) hb
  omega

theorem cdiv_eq_zero_iff (b r : Nat) (hb : 0 < b) : cdiv r b = 0 ↔ r = 0 := by
  constructor
  · intro h
    by_contra hr
    have := cdiv_pos b r hb (by omega)
    omega
  · intro h
    rw [h, cdiv_zero]

theorem cdiv_sub (b r : Nat) (hb : 0 < b) (h : b < r) :
    cdiv r b = cdiv (r - b) b + 1 := by
  have he : r = 1 * b + (r - b) := by omega
  conv_lhs => rw [he]
  rw [cdiv_mul_add b 1 (r - b) hb]
  omega

theorem cdiv_le_of_le_mul (b a m : Nat) (hb : 0 < b) (h : a ≤ m * b) :
    cdiv a b ≤ m := by
  have h1 : a + b - 1 = a + (b - 1) := by omega
  have h2 : a + (b - 1) < (m + 1) * b := by
    have : (m + 1) * b = m * b + b := by ring
    omega
  simp only [cdiv, h1]
  exact Nat.lt_succ_iff.mp ((Nat.div_lt_iff_lt_mul hb).mpr h2)

theorem cdiv_le_cdiv (b a a' : Nat) (h : a ≤ a') : cdiv a b ≤ cdiv a' b :=
  Nat.div_le_div_right (by omega)

theorem cdiv_of_mod_eq_zero (b a : Nat) (hb : 0 < b) (h : a % b = 0) :
    cdiv a b = a / b := by
  have hd := Nat.div_add_mod a b
  rw [h, Nat.add_zero] at hd
  calc cdiv a b = cdiv (a / b * b + 0) b := by
        rw [Nat.add_zero, Nat.mul_comm, hd]
    _ = a / b + cdiv 0 b := cdiv_mul_add b (a / b) 0 hb
    _ = a / b := by rw [cdiv_zero]; omega

theorem cdiv_of_mod_pos (b a : Nat) (hb : 0 < b) (h : 0 < a % b) :
    cdiv a b = a / b + 1 := by
  have hd := Nat.div_add_mod a b
  have hlt := Nat.mod_lt a hb
  calc cdiv a b = cdiv (a / b * b + a % b) b := by rw [Nat.mul_comm, hd]
    _ = a / b + cdiv (a % b) b := cdiv_mul_add b (a / b) (a % b) hb
    _ = a / b + 1 := by rw [cdiv_eq_one b (a % b) hb h (by omega)]

theorem pred_div_of_mod_pos (b a : Nat) (hb : 0 < b) (h : 0 < a % b) :
    (a - 1) / b = a / b := by
  have hd := Nat.div_add_mod a b
  have hlt := Nat.mod_lt a hb
  have he : a - 1 = (a % b - 1) + b * (a / b) := by
    conv_lhs => rw [← hd]
    rw [Nat.add_comm (b * (a / b)) (a % b),
      Nat.sub_add_comm (by omega : 1 ≤ a % b)]
  rw [he, Nat.add_mul_div_left _ _ hb,
    Nat.div_eq_of_lt (by omega : a % b - 1 < b)]
  omega

theorem sub_div_mul_of_mod (b a : Nat) :
    a - a / b * b = a % b := by
  have hd := Nat.div_add_mod a b
  rw [Nat.mul_comm]
  omega

/-! ## Padding and chunk lemmas -/

theorem padTo_length (n : Nat) (l : List Nat) :
    (padTo n l).length = max n l.length := by
  simp only [padTo, List.length_append, List.length_replicate]
  omega

theorem padTo_take (n m : Nat) (l : List Nat) (h : m ≤ l.length) :
    (padTo n l).take m = l.take m :=
  List.take_append_of_le_length h

theorem padTo_of_le (n : Nat) (l : List Nat) (h : n ≤ l.length) :
    padTo n l = l := by
  simp [padTo, Nat.sub_eq_zero_of_le h]

theorem take_drop_append (l1 l2 : List Nat) (m n : Nat)
    (h : m + n ≤ l1.length) :
    ((l1 ++ l2).drop m).take n = (l1.drop m).take n := by
  rw [List.drop_append_of_le_length (by omega),
    List.take_append_of_le_length (by simp; omega)]

/-! ## updateSlots lemmas -/

theorem updateSlots_length (hs : List Nat) :
    ∀ (dbs : List Nat) (pos : Nat),
      (updateSlots dbs pos hs).length = dbs.length := by
  induction hs with
  | nil => intro dbs pos; rfl
  | cons h rest ih =>
    intro dbs pos
    simp only [updateSlots, ih, List.length_set]

theorem updateSlots_getD_lt (hs : List Nat) :
    ∀ (dbs : List Nat) (pos k : Nat), k < pos →
      (updateSlots dbs pos hs).getD k 0 = dbs.getD k 0 := by
  induction hs with
  | nil => intro dbs pos k _; rfl
  | cons h rest ih =>
    intro dbs pos k hk
    simp only [updateSlots]
    rw [ih (dbs.set pos h) (pos + 1) k (by omega)]
    simp only [List.getD_eq_getElem?_getD, List.getElem?_set_ne (by omega : pos ≠ k)]

theorem updateSlots_getD_add (hs : List Nat) :
    ∀ (dbs : List Nat) (pos k : Nat),
      pos + hs.length ≤ dbs.length → k < hs.length →
      (updateSlots dbs pos hs).getD (pos + k) 0 = hs.getD k 0 := by
  induction hs with
  | nil => intro dbs pos k _ hk; simp at hk
  | cons h rest ih =>
    intro dbs pos k hlen hk
    simp only [updateSlots]
    have hpos : pos < dbs.length := by simp only [List.length_cons] at hlen; omega
    match k with
    | 0 =>
      rw [updateSlots_getD_lt rest (dbs.set pos h) (pos + 1) (pos + 0) (by omega)]
      simp only [Nat.add_zero, List.getD_eq_getElem?_getD,
        List.getElem?_set_self hpos, Option.getD_some, List.getElem?_cons_zero]
    | Nat.succ k' =>
      have harr : pos + (k' + 1) = (pos + 1) + k' := by omega
      rw [harr, ih (dbs.set pos h) (pos + 1) k'
        (by simp only [List.length_set, List.length_cons] at hlen ⊢; omega)
        (by simp only [List.length_cons] at hk; omega)]
      rfl

/-! ## allocBlocks lemmas -/

theorem allocBlocks_success :
    ∀ (k : Nat) (fs : FS) (acc hs rest : List Nat),
      fs.freeList = hs ++ rest → hs.length = k → (∀ x ∈ hs, x ≠ 0) →
      allocBlocks fs k acc = (some (acc ++ hs), { fs with freeList := rest }) := by
  intro k
  induction k with
  | zero =>
    intro fs acc hs rest hfl hlen _
    rw [List.length_eq_zero] at hlen
    subst hlen
    simp only [List.nil_append] at hfl
    simp only [allocBlocks, List.append_nil, ← hfl]
  | succ k' ih =>
    intro fs acc hs rest hfl hlen hnz
    match hs, hlen with
    | h :: hs', hlen =>
      have hh : h ≠ 0 := hnz h (by simp)
      simp only [List.cons_append] at hfl
      simp only [allocBlocks, allocateBlock, hfl, if_neg hh]
      rw [ih { fs with freeList := hs' ++ rest } (acc ++ [h]) hs' rest rfl
        (by simpa using hlen) (fun x hx => hnz x (by simp [hx]))]
      simp

/-! ## writeChunks lemmas -/

theorem writeChunks_cur (bs : Nat) (hs : List Nat) :
    ∀ (fs : FS) (ab : List Nat), (writeChunks bs fs hs ab).cur = fs.cur := by
  induction hs with
  | nil => intro fs ab; rfl
  | cons h rest ih => intro fs ab; simp only [writeChunks, ih]; rfl

theorem writeChunks_freeList (bs : Nat) (hs : List Nat) :
    ∀ (fs : FS) (ab : List Nat),
      (writeChunks bs fs hs ab).freeList = fs.freeList := by
  induction hs with
  | nil => intro fs ab; rfl
  | cons h rest ih => intro fs ab; simp only [writeChunks, ih]; rfl

theorem writeChunks_readBlock_notMem (bs : Nat) (hs : List Nat) :
    ∀ (fs : FS) (ab : List Nat) (x : Nat), x ∉ hs →
      readBlock (writeChunks bs fs hs ab) x = readBlock fs x := by
  induction hs with
  | nil => intro fs ab x _; rfl
  | cons h rest ih =>
    intro fs ab x hx
    simp only [List.mem_cons, not_or] at hx
    simp only [writeChunks]
    rw [ih _ _ x hx.2, readBlock_writeBlock_ne _ _ _ _ (fun hh => hx.1 hh.symm)]

theorem writeChunks_readBlock_getD (bs : Nat) (hs : List Nat) :
    ∀ (fs : FS) (ab : List Nat) (i : Nat), hs.Nodup → i < hs.length →
      readBlock (writeChunks bs fs hs ab) (hs.getD i 0)
        = some (.data (padTo bs ((ab.drop (i * bs)).take bs))) := by
  induction hs with
  | nil => intro fs ab i _ hi; simp at hi
  | cons h rest ih =>
    intro fs ab i hnd hi
    simp only [List.nodup_cons] at hnd
    match i with
    | 0 =>
      simp only [List.getD_eq_getElem?_getD, List.getElem?_cons_zero,
        Option.getD_some, writeChunks]
      rw [writeChunks_readBlock_notMem bs rest _ _ h hnd.1,
        readBlock_writeBlock_self]
      simp
    | Nat.succ i' =>
      simp only [writeChunks]
      have hget : (h :: rest).getD (i' + 1) 0 = rest.getD i' 0 := rfl
      rw [hget, ih _ _ i' hnd.2 (by simp at hi; omega)]
      have harith : (i' + 1) * bs = bs + i' * bs := by ring
      rw [List.drop_drop, harith, Nat.add_comm bs (i' * bs)]

/-! ## readLoop reassembly -/

theorem readLoop_spec (bs : Nat) (hbs : 0 < bs) (handles : List Nat) :
    ∀ (content : List Nat) (r : Nat) (fs : FS),
      r ≤ content.length →
      handles.length = cdiv r bs →
      (∀ i, i < handles.length →
        readBlock fs (handles.getD i 0)
          = some (.data (padTo bs ((content.drop (i * bs)).take bs)))) →
      readLoop bs fs handles r = some (content.take r) := by
  induction handles with
  | nil =>
    intro content r fs _ hlen _
    have : r = 0 := by
      have := (cdiv_eq_zero_iff bs r hbs).mp (by simpa using hlen.symm)
      omega
    subst this
    simp [readLoop]
  | cons h rest ih =>
    intro content r fs hr hlen hblocks
    have hr1 : 0 < r := by
      by_contra hc
      have : r = 0 := by omega
      subst this
      rw [cdiv_zero] at hlen
      simp at hlen
    have h0 := hblocks 0 (by simp)
    simp only [List.getD_eq_getElem?_getD, List.getElem?_cons_zero,
      Option.getD_some, Nat.zero_mul, List.drop_zero] at h0
    simp only [readLoop, h0, Block.dataOf]
    by_cases hcase : r ≤ bs
    · have hmin : min r bs = r := by omega
      have hone : cdiv r bs = 1 := cdiv_eq_one bs r hbs hr1 hcase
      have hrest : rest = [] := by
        rw [hone] at hlen
        simp only [List.length_cons] at hlen
        exact List.length_eq_zero.mp (by omega)
      subst hrest
      simp only [hmin, Nat.sub_self, readLoop, List.append_nil]
      rw [padTo_take _ _ _ (by simp; omega), List.take_take]
      simp [hmin]
    · have hmin : min r bs = bs := by omega
      have hlt : bs < r := by omega
      have hlen' : rest.length = cdiv (r - bs) bs := by
        rw [cdiv_sub bs r hbs hlt] at hlen
        simp at hlen
        omega
      have hrec := ih (content.drop bs) (r - bs) fs (by simp; omega) hlen'
        (fun i hi => by
          have := hblocks (i + 1) (by simp; omega)
          simp only [List.getD_eq_getElem?_getD, List.getElem?_cons_succ] at this
          rw [List.getD_eq_getElem?_getD, List.drop_drop]
          have harith : bs + i * bs = (i + 1) * bs := by ring
          rw [harith]
          exact this)
      simp only [hmin, hrec]
      have htake : (padTo bs (content.take bs)).take bs = content.take bs := by
        rw [padTo_take _ _ _ (by simp; omega), List.take_take]
        simp
      rw [htake]
      have hsplit : content.take r
          = content.take bs ++ (content.drop bs).take (r - bs) := by
        have : r = bs + (r - bs) := by omega
        conv_lhs => rw [this]
        exact List.take_add content bs (r - bs)
      rw [hsplit]

/-! ## Evaluation of jfs_creat on a fresh store -/

theorem creat_eval (cfg : Config) (f : String) (n : Nat)
    (hf : f.length ≤ cfg.MAX_NAME_LENGTH) (hMDE : 0 < cfg.MAX_DIR_ENTRIES)
    (hn : 0 < n) :
    jfs_creat cfg (freshFS n) f =
      (.ok (), { blocks := [(1, .dir ⟨[⟨f, 2⟩]⟩),
                            (2, .file ⟨0, List.replicate cfg.MAX_DATA_BLOCKS 0⟩)],
                 freeList := List.range' 3 (n - 1), cur := 1 }) := by
  obtain ⟨m, rfl⟩ : ∃ m, n = m + 1 := ⟨n - 1, by omega⟩
  have h1 : ¬ cfg.MAX_NAME_LENGTH < f.length := by omega
  have h2 : ¬ cfg.MAX_DIR_ENTRIES ≤ ([] : List DirEntry).length := by
    simp; omega
  have h3 : ¬ cfg.MAX_DIR_ENTRIES = 0 := by omega
  simp [jfs_creat, freshFS, readBlock, assocFind, Block.dirnodeOf,
    findEntryIdx, allocateBlock, List.range'_succ, writeBlock, assocSet,
    h1, h2, h3]

/-! ## Evaluation of the tail of jfs_write -/

theorem writeTail_eval (cfg : Config) (fsT : FS) (hI : Nat)
    (l1 : Nat) (dbs1 : List Nat) (ap : Nat) (ab : List Nat)
    (hs2 restT : List Nat)
    (hbs : 0 < cfg.BLOCK_SIZE)
    (hap : ap = l1 % cfg.BLOCK_SIZE)
    (hfl : fsT.freeList = hs2 ++ restT)
    (hs2len : hs2.length = cdiv ab.length cfg.BLOCK_SIZE)
    (hs2nz : ∀ x ∈ hs2, x ≠ 0) :
    jfs_writeTail cfg fsT hI ⟨l1, dbs1⟩ ap ab =
      (.ok (), writeBlock
        (writeChunks cfg.BLOCK_SIZE { fsT with freeList := restT } hs2 ab) hI
        (.file ⟨l1 + (ab.length - ap),
                updateSlots dbs1 (l1 / cfg.BLOCK_SIZE) hs2⟩)) := by
  have hbn : (ab.length + cfg.BLOCK_SIZE - 1) / cfg.BLOCK_SIZE
      = cdiv ab.length cfg.BLOCK_SIZE := rfl
  have hnsp : (if l1 = 0 then 0
      else if ap = 0 then l1 / cfg.BLOCK_SIZE
      else (l1 + cfg.BLOCK_SIZE - 1) / cfg.BLOCK_SIZE - 1)
      = l1 / cfg.BLOCK_SIZE := by
    split_ifs with hz ha
    · simp [hz]
    · rfl
    · have hmp : 0 < l1 % cfg.BLOCK_SIZE := by omega
      have hpos := cdiv_of_mod_pos cfg.BLOCK_SIZE l1 hbs hmp
      show cdiv l1 cfg.BLOCK_SIZE - 1 = l1 / cfg.BLOCK_SIZE
      rw [hpos, Nat.add_sub_cancel]
  have halloc := allocBlocks_success (cdiv ab.length cfg.BLOCK_SIZE) fsT []
    hs2 restT hfl hs2len hs2nz
  simp only [jfs_writeTail, hbn, hnsp, halloc, List.nil_append]

/-! ## The state after a successful jfs_write -/

theorem readBlock_setFreeList (fs : FS) (u : List Nat) (x : Nat) :
    readBlock { fs with freeList := u } x = readBlock fs x := rfl

theorem getD_mem_of_lt (l : List Nat) (k : Nat) (hk : k < l.length) :
    l.getD k 0 ∈ l := by
  rw [List.getD_eq_getElem?_getD, List.getElem?_eq_getElem hk]
  exact List.getElem_mem hk

/-- After the chunk writes and the inode write of a successful
`jfs_write`, the updated inode's first `ceil((|b1|+|b2|)/BS)` data-block
slots hold exactly the chunk decomposition of `b1 ++ b2`. -/
theorem writeFinal_chunks (cfg : Config) (fs : FS) (freeL : List Nat)
    (b1 b2 ab : List Nat) (dbs1 hs2 : List Nat) (hI : Nat)
    (inoNew : Block)
    (hbs : 0 < cfg.BLOCK_SIZE)
    (hab : ab = (b1 ++ b2).drop (b1.length / cfg.BLOCK_SIZE * cfg.BLOCK_SIZE))
    (hchunks : ∀ i, i < cdiv b1.length cfg.BLOCK_SIZE →
      readBlock fs (dbs1.getD i 0)
        = some (.data (padTo cfg.BLOCK_SIZE
            ((b1.drop (i * cfg.BLOCK_SIZE)).take cfg.BLOCK_SIZE))))
    (hold : ∀ i, i < cdiv b1.length cfg.BLOCK_SIZE →
      dbs1.getD i 0 ∉ hs2 ∧ dbs1.getD i 0 ≠ hI)
    (hs2nd : hs2.Nodup)
    (hs2I : hI ∉ hs2)
    (hdbound : cdiv (b1.length + b2.length) cfg.BLOCK_SIZE ≤ dbs1.length)
    (hQf : cdiv (b1.length + b2.length) cfg.BLOCK_SIZE
      = b1.length / cfg.BLOCK_SIZE + hs2.length) :
    ∀ i, i < cdiv (b1.length + b2.length) cfg.BLOCK_SIZE →
      readBlock
          (writeBlock (writeChunks cfg.BLOCK_SIZE { fs with freeList := freeL }
            hs2 ab) hI inoNew)
          ((updateSlots dbs1 (b1.length / cfg.BLOCK_SIZE) hs2).getD i 0)
        = some (.data (padTo cfg.BLOCK_SIZE
            (((b1 ++ b2).drop (i * cfg.BLOCK_SIZE)).take cfg.BLOCK_SIZE))) := by
  intro i hi
  set bs := cfg.BLOCK_SIZE with hbsdef
  set nsp := b1.length / bs with hnsp
  have hdm : bs * nsp + b1.length % bs = b1.length := Nat.div_add_mod b1.length bs
  have hfloor_le : nsp ≤ cdiv b1.length bs := Nat.div_le_div_right (by omega)
  by_cases hcase : i < nsp
  · -- a slot strictly below the rewrite point: untouched old chunk of b1
    have hgd : (updateSlots dbs1 nsp hs2).getD i 0 = dbs1.getD i 0 :=
      updateSlots_getD_lt hs2 dbs1 nsp i hcase
    have hio : i < cdiv b1.length bs := by omega
    obtain ⟨hnotmem, hne⟩ := hold i hio
    rw [hgd, readBlock_writeBlock_ne _ _ _ _ (fun hh => hne hh.symm),
      writeChunks_readBlock_notMem _ _ _ _ _ hnotmem, readBlock_setFreeList,
      hchunks i hio]
    -- the chunk of b1 agrees with the chunk of b1 ++ b2 below the cut
    have h1 : bs * nsp ≤ b1.length := by omega
    have h2 : (i + 1) * bs ≤ nsp * bs := Nat.mul_le_mul_right bs (by omega)
    have h3 : i * bs + bs ≤ b1.length := by
      calc i * bs + bs = (i + 1) * bs := (Nat.succ_mul i bs).symm
        _ ≤ nsp * bs := h2
        _ = bs * nsp := Nat.mul_comm nsp bs
        _ ≤ b1.length := h1
    rw [take_drop_append b1 b2 (i * bs) bs (by omega)]
  · -- a slot at or above the rewrite point: freshly written chunk
    obtain ⟨k, rfl⟩ : ∃ k, i = nsp + k := ⟨i - nsp, by omega⟩
    have hk : k < hs2.length := by omega
    have hgd : (updateSlots dbs1 nsp hs2).getD (nsp + k) 0 = hs2.getD k 0 :=
      updateSlots_getD_add hs2 dbs1 nsp k (by omega) hk
    have hmem : hs2.getD k 0 ∈ hs2 := getD_mem_of_lt hs2 k hk
    have hne : hI ≠ hs2.getD k 0 := fun hh => hs2I (hh ▸ hmem)
    rw [hgd, readBlock_writeBlock_ne _ _ _ _ hne,
      writeChunks_readBlock_getD bs hs2 _ ab k hs2nd hk, hab]
    rw [List.drop_drop]
    have harith : nsp * bs + k * bs = (nsp + k) * bs := (Nat.add_mul nsp k bs).symm
    rw [harith]

/-- Evaluation of a successful `jfs_write` appending `b2` to a file that
currently holds `b1`, laid out canonically: the call succeeds, the freshly
allocated handles are the first `ceil((|b1| mod BS + |b2|)/BS)` entries of
the free list, the last partly-filled old block (if any) is released, the
inode is rewritten with `file_size = |b1| + |b2|` and the new handles
installed from slot `|b1| / BS` on, and the resulting data blocks hold the
chunk decomposition of `b1 ++ b2`. -/
theorem write_eval (cfg : Config) (fs : FS) (f : String) (b1 b2 : List Nat)
    (node : DirNode) (idx : Nat) (hI : Nat) (dbs1 : List Nat)
    (hs2 rest : List Nat)
    (hbs : 0 < cfg.BLOCK_SIZE)
    (hcap : cfg.MAX_FILE_SIZE ≤ cfg.MAX_DATA_BLOCKS * cfg.BLOCK_SIZE)
    (hcur : readBlock fs fs.cur = some (.dir node))
    (hfind : findEntryIdx f node.entries = some idx)
    (hentry : (entryAt node.entries idx).block_num = hI)
    (hIne : hI ≠ fs.cur)
    (hino : readBlock fs hI = some (.file ⟨b1.length, dbs1⟩))
    (hdlen : dbs1.length = cfg.MAX_DATA_BLOCKS)
    (hchunks : ∀ i, i < cdiv b1.length cfg.BLOCK_SIZE →
      readBlock fs (dbs1.getD i 0)
        = some (.data (padTo cfg.BLOCK_SIZE
            ((b1.drop (i * cfg.BLOCK_SIZE)).take cfg.BLOCK_SIZE))))
    (hold : ∀ i, i < cdiv b1.length cfg.BLOCK_SIZE →
      dbs1.getD i 0 ∉ hs2 ∧ dbs1.getD i 0 ≠ hI)
    (hsize : b1.length + b2.length ≤ cfg.MAX_FILE_SIZE)
    (hfl : fs.freeList = hs2 ++ rest)
    (hs2len : hs2.length
      = cdiv (b1.length % cfg.BLOCK_SIZE + b2.length) cfg.BLOCK_SIZE)
    (hs2nz : ∀ x ∈ hs2, x ≠ 0)
    (hs2nd : hs2.Nodup)
    (hs2cur : fs.cur ∉ hs2)
    (hs2I : hI ∉ hs2) :
    ∃ fs',
      jfs_write cfg fs f b2 = (.ok (), fs') ∧
      fs'.cur = fs.cur ∧
      fs'.freeList = rest ++ (if 0 < b1.length % cfg.BLOCK_SIZE
        then [dbs1.getD (b1.length / cfg.BLOCK_SIZE) 0] else []) ∧
      readBlock fs' fs.cur = some (.dir node) ∧
      readBlock fs' hI = some (.file ⟨b1.length + b2.length,
        updateSlots dbs1 (b1.length / cfg.BLOCK_SIZE) hs2⟩) ∧
      (updateSlots dbs1 (b1.length / cfg.BLOCK_SIZE) hs2).length
        = cfg.MAX_DATA_BLOCKS ∧
      (∀ i, i < cdiv (b1.length + b2.length) cfg.BLOCK_SIZE →
        readBlock fs'
            ((updateSlots dbs1 (b1.length / cfg.BLOCK_SIZE) hs2).getD i 0)
          = some (.data (padTo cfg.BLOCK_SIZE
              (((b1 ++ b2).drop (i * cfg.BLOCK_SIZE)).take cfg.BLOCK_SIZE)))) := by
  have hdm : cfg.BLOCK_SIZE * (b1.length / cfg.BLOCK_SIZE)
      + b1.length % cfg.BLOCK_SIZE = b1.length := Nat.div_add_mod _ _
  have haplt : b1.length % cfg.BLOCK_SIZE < cfg.BLOCK_SIZE := Nat.mod_lt _ hbs
  have hQmul : b1.length / cfg.BLOCK_SIZE * cfg.BLOCK_SIZE
      + (b1.length % cfg.BLOCK_SIZE + b2.length) = b1.length + b2.length := by
    rw [Nat.mul_comm, ← Nat.add_assoc, hdm]
  have hQf : cdiv (b1.length + b2.length) cfg.BLOCK_SIZE
      = b1.length / cfg.BLOCK_SIZE
        + cdiv (b1.length % cfg.BLOCK_SIZE + b2.length) cfg.BLOCK_SIZE := by
    rw [← hQmul, cdiv_mul_add _ _ _ hbs]
  have hQle : cdiv (b1.length + b2.length) cfg.BLOCK_SIZE
      ≤ cfg.MAX_DATA_BLOCKS :=
    cdiv_le_of_le_mul _ _ _ hbs (le_trans hsize hcap)
  have hQfhs : cdiv (b1.length + b2.length) cfg.BLOCK_SIZE
      = b1.length / cfg.BLOCK_SIZE + hs2.length := by rw [hQf, hs2len]
  have hdbound : cdiv (b1.length + b2.length) cfg.BLOCK_SIZE ≤ dbs1.length := by
    omega
  have hnf : ¬ (cfg.MAX_FILE_SIZE < b1.length + b2.length) := by omega
  simp only [jfs_write, hcur, Block.dirnodeOf, hfind, hentry, hino,
    Block.isDirTag, Block.inodeOf, Bool.false_eq_true, if_false, if_neg hnf]
  by_cases hap0 : b1.length % cfg.BLOCK_SIZE = 0
  · -- block-aligned current length (or empty file): no merge step
    rw [if_neg (by omega :
      ¬ (0 < b1.length % cfg.BLOCK_SIZE ∧ 0 < b1.length))]
    have hs2len' : hs2.length = cdiv b2.length cfg.BLOCK_SIZE := by
      rw [hs2len, hap0, Nat.zero_add]
    have htail := writeTail_eval cfg fs hI b1.length dbs1 0 b2 hs2 rest hbs
      hap0.symm hfl hs2len' hs2nz
    rw [htail]
    refine ⟨_, rfl, ?_, ?_, ?_, ?_, ?_, ?_⟩
    · rw [writeBlock_cur, writeChunks_cur]
    · rw [writeBlock_freeList, writeChunks_freeList]
      rw [if_neg (by omega : ¬ 0 < b1.length % cfg.BLOCK_SIZE), List.append_nil]
    · rw [readBlock_writeBlock_ne _ _ _ _ hIne,
        writeChunks_readBlock_notMem _ _ _ _ _ hs2cur, readBlock_setFreeList,
        hcur]
    · rw [readBlock_writeBlock_self]
      simp only [Nat.sub_zero]
    · rw [updateSlots_length, hdlen]
    · have hab : b2 = (b1 ++ b2).drop
          (b1.length / cfg.BLOCK_SIZE * cfg.BLOCK_SIZE) := by
        have hlen1 : b1.length / cfg.BLOCK_SIZE * cfg.BLOCK_SIZE
            = b1.length := by rw [Nat.mul_comm]; omega
        rw [hlen1, List.drop_left]
      intro i hi
      have hres := writeFinal_chunks cfg fs rest b1 b2 b2 dbs1 hs2 hI
        (.file ⟨b1.length + (b2.length - 0),
          updateSlots dbs1 (b1.length / cfg.BLOCK_SIZE) hs2⟩) hbs hab hchunks
        hold hs2nd hs2I hdbound hQfhs i hi
      simpa using hres
  · -- the file ends mid-block: merge into the last old data block
    have hap1 : 0 < b1.length % cfg.BLOCK_SIZE := by omega
    have hl1 : 0 < b1.length := by
      rcases Nat.eq_zero_or_pos b1.length with h0 | h0
      · rw [h0] at hap1; simp at hap1
      · exact h0
    rw [if_pos (⟨hap1, hl1⟩ : 0 < b1.length % cfg.BLOCK_SIZE ∧ 0 < b1.length)]
    have hlast : (b1.length - 1) / cfg.BLOCK_SIZE
        = b1.length / cfg.BLOCK_SIZE := pred_div_of_mod_pos _ _ hbs hap1
    have hnsplt : b1.length / cfg.BLOCK_SIZE < cdiv b1.length cfg.BLOCK_SIZE := by
      rw [cdiv_of_mod_pos _ _ hbs hap1]
      omega
    have hlastchunk := hchunks (b1.length / cfg.BLOCK_SIZE) hnsplt
    simp only [hlast, hlastchunk, Block.dataOf]
    have hslen : (b1.drop (b1.length / cfg.BLOCK_SIZE * cfg.BLOCK_SIZE)).length
        = b1.length % cfg.BLOCK_SIZE := by
      rw [List.length_drop, sub_div_mul_of_mod]
    have hstake : (b1.drop (b1.length / cfg.BLOCK_SIZE * cfg.BLOCK_SIZE)).take
        cfg.BLOCK_SIZE = b1.drop (b1.length / cfg.BLOCK_SIZE * cfg.BLOCK_SIZE) :=
      List.take_of_length_le (by omega)
    have hbuf : padTo (b1.length % cfg.BLOCK_SIZE)
        ((padTo cfg.BLOCK_SIZE
          ((b1.drop (b1.length / cfg.BLOCK_SIZE * cfg.BLOCK_SIZE)).take
            cfg.BLOCK_SIZE)).take (b1.length % cfg.BLOCK_SIZE))
        = b1.drop (b1.length / cfg.BLOCK_SIZE * cfg.BLOCK_SIZE) := by
      rw [hstake, padTo_take _ _ _ (by omega), List.take_of_length_le (by omega),
        padTo_of_le _ _ (by omega)]
    have hab : b1.drop (b1.length / cfg.BLOCK_SIZE * cfg.BLOCK_SIZE) ++ b2
        = (b1 ++ b2).drop (b1.length / cfg.BLOCK_SIZE * cfg.BLOCK_SIZE) := by
      rw [List.drop_append_of_le_length (by rw [Nat.mul_comm]; omega)]
    have hablen : (b1.drop (b1.length / cfg.BLOCK_SIZE * cfg.BLOCK_SIZE)
        ++ b2).length = b1.length % cfg.BLOCK_SIZE + b2.length := by
      rw [List.length_append, hslen]
    have hfl1 : (releaseBlock fs
        (dbs1.getD (b1.length / cfg.BLOCK_SIZE) 0)).freeList
        = hs2 ++ (rest ++ [dbs1.getD (b1.length / cfg.BLOCK_SIZE) 0]) := by
      simp only [releaseBlock, hfl, List.append_assoc]
    have htail := writeTail_eval cfg
      (releaseBlock fs (dbs1.getD (b1.length / cfg.BLOCK_SIZE) 0)) hI
      b1.length dbs1 (b1.length % cfg.BLOCK_SIZE)
      (b1.drop (b1.length / cfg.BLOCK_SIZE * cfg.BLOCK_SIZE) ++ b2) hs2
      (rest ++ [dbs1.getD (b1.length / cfg.BLOCK_SIZE) 0]) hbs rfl hfl1
      (by rw [hablen, hs2len]) hs2nz
    rw [hbuf, htail]
    have hrel : ({ releaseBlock fs (dbs1.getD (b1.length / cfg.BLOCK_SIZE) 0)
        with freeList := rest ++ [dbs1.getD (b1.length / cfg.BLOCK_SIZE) 0] } : FS)
        = { fs with freeList
            := rest ++ [dbs1.getD (b1.length / cfg.BLOCK_SIZE) 0] } := rfl
    rw [hrel]
    refine ⟨_, rfl, ?_, ?_, ?_, ?_, ?_, ?_⟩
    · rw [writeBlock_cur, writeChunks_cur]
    · rw [writeBlock_freeList, writeChunks_freeList,
        if_pos (by omega : 0 < b1.length % cfg.BLOCK_SIZE)]
    · rw [readBlock_writeBlock_ne _ _ _ _ hIne,
        writeChunks_readBlock_notMem _ _ _ _ _ hs2cur, readBlock_setFreeList,
        hcur]
    · rw [readBlock_writeBlock_self, hablen]
      have harith : b1.length + (b1.length % cfg.BLOCK_SIZE + b2.length
          - b1.length % cfg.BLOCK_SIZE) = b1.length + b2.length := by omega
      rw [harith]
    · rw [updateSlots_length, hdlen]
    · intro i hi
      have hres := writeFinal_chunks cfg fs
        (rest ++ [dbs1.getD (b1.length / cfg.BLOCK_SIZE) 0]) b1 b2
        (b1.drop (b1.length / cfg.BLOCK_SIZE * cfg.BLOCK_SIZE) ++ b2) dbs1 hs2
        hI (.file ⟨b1.length
            + ((b1.drop (b1.length / cfg.BLOCK_SIZE * cfg.BLOCK_SIZE)
                ++ b2).length - b1.length % cfg.BLOCK_SIZE),
          updateSlots dbs1 (b1.length / cfg.BLOCK_SIZE) hs2⟩) hbs hab hchunks
        hold hs2nd hs2I hdbound hQfhs i hi
      exact hres

/-- Evaluation of a successful `jfs_read` on a file whose data blocks hold
the chunk decomposition of `content`: it returns
`min (content.length) max_bytes` bytes, namely that prefix of `content`,
and leaves the state untouched. -/
theorem read_eval (cfg : Config) (fs : FS) (f : String) (max_bytes : Nat)
    (node : DirNode) (idx : Nat) (hI : Nat) (content : List Nat)
    (dbs : List Nat)
    (hbs : 0 < cfg.BLOCK_SIZE)
    (hcur : readBlock fs fs.cur = some (.dir node))
    (hfind : findEntryIdx f node.entries = some idx)
    (hentry : (entryAt node.entries idx).block_num = hI)
    (hino : readBlock fs hI = some (.file ⟨content.length, dbs⟩))
    (hchunks : ∀ i, i < cdiv content.length cfg.BLOCK_SIZE →
      readBlock fs (dbs.getD i 0)
        = some (.data (padTo cfg.BLOCK_SIZE
            ((content.drop (i * cfg.BLOCK_SIZE)).take cfg.BLOCK_SIZE)))) :
    jfs_read cfg fs f max_bytes
      = (.ok (min content.length max_bytes,
          content.take (min content.length max_bytes)), fs) := by
  have hr : min content.length max_bytes ≤ content.length := Nat.min_le_left _ _
  have hlen : ((List.range ((min content.length max_bytes + cfg.BLOCK_SIZE - 1)
        / cfg.BLOCK_SIZE)).map (fun i => dbs.getD i 0)).length
      = cdiv (min content.length max_bytes) cfg.BLOCK_SIZE := by
    rw [List.length_map, List.length_range]
    rfl
  have hblocks : ∀ i, i < ((List.range ((min content.length max_bytes
        + cfg.BLOCK_SIZE - 1) / cfg.BLOCK_SIZE)).map
          (fun i => dbs.getD i 0)).length →
      readBlock fs (((List.range ((min content.length max_bytes
          + cfg.BLOCK_SIZE - 1) / cfg.BLOCK_SIZE)).map
            (fun i => dbs.getD i 0)).getD i 0)
        = some (.data (padTo cfg.BLOCK_SIZE
            ((content.drop (i * cfg.BLOCK_SIZE)).take cfg.BLOCK_SIZE))) := by
    intro i hi
    rw [List.length_map, List.length_range] at hi
    have hgd : ((List.range ((min content.length max_bytes + cfg.BLOCK_SIZE - 1)
        / cfg.BLOCK_SIZE)).map (fun i => dbs.getD i 0)).getD i 0
        = dbs.getD i 0 := by
      rw [List.getD_eq_getElem?_getD, List.getElem?_map,
        List.getElem?_range hi]
      rfl
    rw [hgd]
    have hile : i < cdiv content.length cfg.BLOCK_SIZE := by
      have h1 : cdiv (min content.length max_bytes) cfg.BLOCK_SIZE
          ≤ cdiv content.length cfg.BLOCK_SIZE := cdiv_le_cdiv _ _ _ hr
      have h2 : (min content.length max_bytes + cfg.BLOCK_SIZE - 1)
          / cfg.BLOCK_SIZE
          = cdiv (min content.length max_bytes) cfg.BLOCK_SIZE := rfl
      omega
    exact hchunks i hile
  have hloop := readLoop_spec cfg.BLOCK_SIZE hbs
    ((List.range ((min content.length max_bytes + cfg.BLOCK_SIZE - 1)
      / cfg.BLOCK_SIZE)).map (fun i => dbs.getD i 0))
    content (min content.length max_bytes) fs hr hlen hblocks
  simp only [jfs_read, hcur, Block.dirnodeOf, hfind, hentry, hino,
    Block.isDirTag, Block.inodeOf, Bool.false_eq_true, if_false, hloop]

/-- The `m`-th handle of `range'` read with `getD`. -/
theorem range'_getD (s K i : Nat) (hi : i < K) :
    (List.range' s K).getD i 0 = s + i := by
  rw [List.getD_eq_getElem?_getD, List.getElem?_range' s 1 hi]
  simp

/-- The state after `creat f` followed by a first `write f u` on a fresh
store: the root directory holds the single entry `(f, 2)`, handle 2 holds
the inode of a file of length `|u|` whose populated slots are the handles
`3, 4, ...`, and those handles hold the chunk decomposition of `u`. -/
theorem creat_write_eval (cfg : Config) (f : String) (u : List Nat) (n : Nat)
    (hbs : 0 < cfg.BLOCK_SIZE)
    (hcap : cfg.MAX_FILE_SIZE ≤ cfg.MAX_DATA_BLOCKS * cfg.BLOCK_SIZE)
    (hMDE : 0 < cfg.MAX_DIR_ENTRIES)
    (hf : f.length ≤ cfg.MAX_NAME_LENGTH)
    (hu : u.length ≤ cfg.MAX_FILE_SIZE)
    (hn : cdiv u.length cfg.BLOCK_SIZE + 1 ≤ n) :
    ∃ fs2,
      (jfs_creat cfg (freshFS n) f).1 = .ok () ∧
      jfs_write cfg (jfs_creat cfg (freshFS n) f).2 f u = (.ok (), fs2) ∧
      fs2.cur = 1 ∧
      fs2.freeList = List.range' (3 + cdiv u.length cfg.BLOCK_SIZE)
        (n - 1 - cdiv u.length cfg.BLOCK_SIZE) ∧
      readBlock fs2 1 = some (.dir ⟨[⟨f, 2⟩]⟩) ∧
      readBlock fs2 2 = some (.file ⟨u.length,
        updateSlots (List.replicate cfg.MAX_DATA_BLOCKS 0) 0
          (List.range' 3 (cdiv u.length cfg.BLOCK_SIZE))⟩) ∧
      (updateSlots (List.replicate cfg.MAX_DATA_BLOCKS 0) 0
        (List.range' 3 (cdiv u.length cfg.BLOCK_SIZE))).length
        = cfg.MAX_DATA_BLOCKS ∧
      (∀ i, i < cdiv u.length cfg.BLOCK_SIZE →
        readBlock fs2
            ((updateSlots (List.replicate cfg.MAX_DATA_BLOCKS 0) 0
              (List.range' 3 (cdiv u.length cfg.BLOCK_SIZE))).getD i 0)
          = some (.data (padTo cfg.BLOCK_SIZE
              ((u.drop (i * cfg.BLOCK_SIZE)).take cfg.BLOCK_SIZE)))) := by
  have hc := creat_eval cfg f n hf hMDE (by omega)
  have hsplit : List.range' 3 (cdiv u.length cfg.BLOCK_SIZE)
      ++ List.range' (3 + cdiv u.length cfg.BLOCK_SIZE)
          (n - 1 - cdiv u.length cfg.BLOCK_SIZE)
      = List.range' 3 (n - 1) := by
    have happ := List.range'_append 3 (cdiv u.length cfg.BLOCK_SIZE)
      (n - 1 - cdiv u.length cfg.BLOCK_SIZE) 1
    simp only [Nat.one_mul] at happ
    rw [happ]
    congr 1
    omega
  obtain ⟨fs2, heq, hcur2, hfree2, hdir2, hino2, hlen2, hchunks2⟩ :=
    write_eval cfg
      { blocks := [(1, .dir ⟨[⟨f, 2⟩]⟩),
                   (2, .file ⟨0, List.replicate cfg.MAX_DATA_BLOCKS 0⟩)],
        freeList := List.range' 3 (n - 1), cur := 1 }
      f [] u ⟨[⟨f, 2⟩]⟩ 0 2 (List.replicate cfg.MAX_DATA_BLOCKS 0)
      (List.range' 3 (cdiv u.length cfg.BLOCK_SIZE))
      (List.range' (3 + cdiv u.length cfg.BLOCK_SIZE)
        (n - 1 - cdiv u.length cfg.BLOCK_SIZE))
      hbs hcap
      (by rfl)
      (by simp [findEntryIdx])
      (by rfl)
      (by simp)
      (by rfl)
      (by simp)
      (by intro i hi; simp [cdiv_zero] at hi)
      (by intro i hi; simp [cdiv_zero] at hi)
      (by simp only [List.length_nil, Nat.zero_add]; exact hu)
      (by simp only [← hsplit])
      (by simp [cdiv_zero, Nat.zero_mod])
      (by intro x hx; rw [List.mem_range'_1] at hx; omega)
      (List.nodup_range' _ _)
      (by simp only [List.mem_range'_1]; omega)
      (by simp only [List.mem_range'_1]; omega)
  simp only [List.length_nil, Nat.zero_add, Nat.zero_div, List.nil_append,
    Nat.zero_mod, Nat.lt_irrefl, if_false, List.append_nil]
    at hino2 hchunks2 hfree2 hlen2
  refine ⟨fs2, by rw [hc], by rw [hc]; exact heq, by simpa using hcur2,
    hfree2, ?_, hino2, hlen2, hchunks2⟩
  simpa using hdir2

/-! ## Claim theorems -/

/-- Claim C1: for every byte sequence `b` with `len b ≤ MAX_FILE_SIZE` and
every valid fresh name `f` (on a freshly mounted store with enough free
blocks), the sequence `creat f; write f b; read f (len b)` succeeds and
the read returns exactly the pair `(len b, b)`. -/
theorem claim_C1_round_trip (cfg : Config) (f : String) (b : List Nat)
    (n : Nat)
    (hbs : 0 < cfg.BLOCK_SIZE)
    (hcap : cfg.MAX_FILE_SIZE ≤ cfg.MAX_DATA_BLOCKS * cfg.BLOCK_SIZE)
    (hMDE : 0 < cfg.MAX_DIR_ENTRIES)
    (hf : f.length ≤ cfg.MAX_NAME_LENGTH)
    (hb : b.length ≤ cfg.MAX_FILE_SIZE)
    (hn : cdiv b.length cfg.BLOCK_SIZE + 1 ≤ n) :
    (jfs_creat cfg (freshFS n) f).1 = .ok () ∧
    (jfs_write cfg (jfs_creat cfg (freshFS n) f).2 f b).1 = .ok () ∧
    (jfs_read cfg (jfs_write cfg (jfs_creat cfg (freshFS n) f).2 f b).2 f
        b.length).1 = .ok (b.length, b) := by
  obtain ⟨fs2, hcok, heq, hcur2, hfree2, hdir2, hino2, hlen2, hchunks2⟩ :=
    creat_write_eval cfg f b n hbs hcap hMDE hf hb hn
  have hread := read_eval cfg fs2 f b.length ⟨[⟨f, 2⟩]⟩ 0 2 b
    (updateSlots (List.replicate cfg.MAX_DATA_BLOCKS 0) 0
      (List.range' 3 (cdiv b.length cfg.BLOCK_SIZE)))
    hbs (by rw [hcur2]; exact hdir2) (by simp [findEntryIdx]) (by rfl)
    hino2 hchunks2
  refine ⟨hcok, ?_, ?_⟩
  · simp only [heq]
  · simp only [heq, hread, Nat.min_self, List.take_length]

/-! ## findEntryIdx lemmas -/

theorem findEntryIdx_none_iff (f : String) (entries : List DirEntry) :
    findEntryIdx f entries = none ↔ ∀ e ∈ entries, e.name ≠ f := by
  induction entries with
  | nil => simp [findEntryIdx]
  | cons e rest ih =>
    by_cases he : e.name = f
    · simp [findEntryIdx, he]
    · simp [findEntryIdx, he, ih]

theorem findEntryIdx_lt (f : String) (entries : List DirEntry) (idx : Nat)
    (h : findEntryIdx f entries = some idx) :
    idx < entries.length ∧ (entryAt entries idx).name = f := by
  induction entries generalizing idx with
  | nil => simp [findEntryIdx] at h
  | cons e rest ih =>
    by_cases he : e.name = f
    · simp only [findEntryIdx, if_pos he] at h
      obtain rfl : 0 = idx := Option.some.inj h
      exact ⟨by simp, he⟩
    · simp only [findEntryIdx, if_neg he, Option.map_eq_some'] at h
      obtain ⟨idx', hfind', rfl⟩ := h
      obtain ⟨hlt, hname⟩ := ih idx' hfind'
      exact ⟨by simp; omega, hname⟩

theorem findEntryIdx_eraseIdx (f : String) (entries : List DirEntry)
    (idx : Nat) (hfind : findEntryIdx f entries = some idx)
    (hnd : (entries.map DirEntry.name).Nodup) :
    findEntryIdx f (entries.eraseIdx idx) = none := by
  induction entries generalizing idx with
  | nil => simp [findEntryIdx] at hfind
  | cons e rest ih =>
    simp only [List.map_cons, List.nodup_cons] at hnd
    by_cases he : e.name = f
    · simp only [findEntryIdx, if_pos he] at hfind
      obtain rfl : 0 = idx := Option.some.inj hfind
      simp only [List.eraseIdx_cons_zero]
      rw [findEntryIdx_none_iff]
      intro e' he' hne
      apply hnd.1
      rw [he, ← hne]
      exact List.mem_map_of_mem DirEntry.name he'
    · simp only [findEntryIdx, if_neg he, Option.map_eq_some'] at hfind
      obtain ⟨idx', hfind', rfl⟩ := hfind
      simp only [List.eraseIdx_cons_succ, findEntryIdx, if_neg he,
        ih idx' hfind' hnd.2, Option.map_none']

/-- The `num_data_blocks` expression of `jfs_stat` equals
`ceil(file_size / BLOCK_SIZE)`. -/
theorem stat_blocks_eq_cdiv (b sz : Nat) (hb : 0 < b) :
    (if 0 < sz then (sz - 1) / b + 1 else 0) = cdiv sz b := by
  split_ifs with hsz
  · by_cases hm : sz % b = 0
    · have hd := Nat.div_add_mod sz b
      rw [hm, Nat.add_zero] at hd
      rw [cdiv_of_mod_eq_zero b sz hb hm]
      obtain ⟨q, hq⟩ : ∃ q, sz / b = q := ⟨_, rfl⟩
      rw [hq] at hd ⊢
      have hqpos : 0 < q := by
        rcases Nat.eq_zero_or_pos q with h0 | h0
        · subst h0
          rw [Nat.mul_zero] at hd
          omega
        · exact h0
      have h2 : sz - 1 = (b - 1) + b * (q - 1) := by
        have hmul : b * q = b * (q - 1) + b := by
          conv_lhs => rw [show q = (q - 1) + 1 by omega]
          rw [Nat.mul_succ]
        omega
      rw [h2, Nat.add_mul_div_left _ _ hb,
        Nat.div_eq_of_lt (by omega : b - 1 < b)]
      omega
    · rw [pred_div_of_mod_pos b sz hb (by omega),
        cdiv_of_mod_pos b sz hb (by omega)]
  · have : sz = 0 := by omega
    rw [this, cdiv_zero]

/-- Claim C5: a `write` that would exceed `MAX_FILE_SIZE` fails
`FileTooLarge` with the state (hence any later `stat`) unchanged. -/
theorem claim_C5_file_too_large (cfg : Config) (fs : FS) (f : String)
    (b : List Nat) (node : DirNode) (idx : Nat) (hI : Nat) (ino : Inode)
    (hcur : readBlock fs fs.cur = some (.dir node))
    (hfind : findEntryIdx f node.entries = some idx)
    (hentry : (entryAt node.entries idx).block_num = hI)
    (hino : readBlock fs hI = some (.file ino))
    (hbig : cfg.MAX_FILE_SIZE < ino.file_size + b.length) :
    jfs_write cfg fs f b = (.error .eMaxFileSize, fs) ∧
    jfs_stat cfg (jfs_write cfg fs f b).2 f = jfs_stat cfg fs f := by
  have hw : jfs_write cfg fs f b = (.error .eMaxFileSize, fs) := by
    simp only [jfs_write, hcur, Block.dirnodeOf, hfind, hentry, hino,
      Block.isDirTag, Block.inodeOf, Bool.false_eq_true, if_false,
      if_pos hbig]
  exact ⟨hw, by rw [hw]⟩

/-- Claim C6: `read(name, max_bytes)` fails `NotFound` when the name is
absent and `IsADirectory` when the target is a directory; otherwise it
returns `n = min(file_size, max_bytes)` and exactly the first `n` bytes of
the content, and never mutates the state. -/
theorem claim_C6_read (cfg : Config) (fs : FS) (f : String) (max_bytes : Nat)
    (node : DirNode)
    (hbs : 0 < cfg.BLOCK_SIZE)
    (hcur : readBlock fs fs.cur = some (.dir node)) :
    (findEntryIdx f node.entries = none →
      jfs_read cfg fs f max_bytes = (.error .eNotExists, fs)) ∧
    (∀ (idx : Nat) (dnode : DirNode), findEntryIdx f node.entries = some idx →
      readBlock fs (entryAt node.entries idx).block_num = some (.dir dnode) →
      jfs_read cfg fs f max_bytes = (.error .eIsDir, fs)) ∧
    (∀ (idx : Nat) (content : List Nat) (dbs : List Nat),
      findEntryIdx f node.entries = some idx →
      readBlock fs (entryAt node.entries idx).block_num
        = some (.file ⟨content.length, dbs⟩) →
      (∀ i, i < cdiv content.length cfg.BLOCK_SIZE →
        readBlock fs (dbs.getD i 0) = some (.data (padTo cfg.BLOCK_SIZE
          ((content.drop (i * cfg.BLOCK_SIZE)).take cfg.BLOCK_SIZE)))) →
      jfs_read cfg fs f max_bytes
        = (.ok (min content.length max_bytes,
            content.take (min content.length max_bytes)), fs)) := by
  refine ⟨?_, ?_, ?_⟩
  · intro hnone
    simp only [jfs_read, hcur, Block.dirnodeOf, hnone]
  · intro idx dnode hfind hdir
    simp [jfs_read, hcur, Block.dirnodeOf, hfind, hdir, Block.isDirTag]
  · intro idx content dbs hfind hino hchunks
    exact read_eval cfg fs f max_bytes node idx _ content dbs hbs hcur hfind
      rfl hino hchunks

/-- Claim C7: `remove(name)` fails `NotFound` when the name is absent and
`IsADirectory` when the target is a directory; otherwise it releases the
populated data-block prefix (stopping at the first zero sentinel, never
past `MAX_DATA_BLOCKS`), releases the inode block exactly once, erases the
directory entry, and a subsequent `stat(name)` returns `NotFound`. -/
theorem claim_C7_remove (cfg : Config) (fs : FS) (f : String) (node : DirNode)
    (hcur : readBlock fs fs.cur = some (.dir node)) :
    (findEntryIdx f node.entries = none →
      jfs_remove cfg fs f = (.error .eNotExists, fs)) ∧
    (∀ (idx : Nat) (dnode : DirNode), findEntryIdx f node.entries = some idx →
      readBlock fs (entryAt node.entries idx).block_num = some (.dir dnode) →
      jfs_remove cfg fs f = (.error .eIsDir, fs)) ∧
    (∀ (idx : Nat) (ino : Inode), findEntryIdx f node.entries = some idx →
      readBlock fs (entryAt node.entries idx).block_num = some (.file ino) →
      (node.entries.map DirEntry.name).Nodup →
      jfs_remove cfg fs f
        = (.ok (), { blocks := (assocSet fs.blocks fs.cur
                          (.dir ⟨node.entries.eraseIdx idx⟩)),
                     freeList := (fs.freeList
                       ++ (ino.data_blocks.take cfg.MAX_DATA_BLOCKS).takeWhile
                           (fun h => h ≠ 0)
                       ++ [(entryAt node.entries idx).block_num]),
                     cur := fs.cur }) ∧
      (jfs_stat cfg (jfs_remove cfg fs f).2 f).1 = .error .eNotExists) := by
  refine ⟨?_, ?_, ?_⟩
  · intro hnone
    simp only [jfs_remove, hcur, Block.dirnodeOf, hnone]
  · intro idx dnode hfind hdir
    simp [jfs_remove, hcur, Block.dirnodeOf, hfind, hdir, Block.isDirTag]
  · intro idx ino hfind hino hnd
    have hrm : jfs_remove cfg fs f
        = (.ok (), { blocks := (assocSet fs.blocks fs.cur
                          (.dir ⟨node.entries.eraseIdx idx⟩)),
                     freeList := (fs.freeList
                       ++ (ino.data_blocks.take cfg.MAX_DATA_BLOCKS).takeWhile
                           (fun h => h ≠ 0)
                       ++ [(entryAt node.entries idx).block_num]),
                     cur := fs.cur }) := by
      simp only [jfs_remove, hcur, Block.dirnodeOf, hfind, hino,
        Block.isDirTag, Bool.false_eq_true, if_false, Block.inodeOf,
        foldl_releaseBlock, releaseBlock, writeBlock]
    refine ⟨hrm, ?_⟩
    have hfind' := findEntryIdx_eraseIdx f node.entries idx hfind hnd
    rw [hrm]
    simp [jfs_stat, readBlock, assocFind_assocSet, Block.dirnodeOf, hfind']

/-- Claim C8: `rmdir(name)` fails `NotFound` when the name is absent,
`NotADirectory` when the target is a file, `NotEmpty` when the target
directory has entries; otherwise it releases the target block and removes
the entry by compaction (the surviving entries are the ones before the
index followed by the ones after it, so the count drops by one), and
persists the current directory. -/
theorem eraseIdx_length_succ (l : List DirEntry) :
    ∀ i : Nat, i < l.length → (l.eraseIdx i).length + 1 = l.length := by
  induction l with
  | nil => intro i h; simp at h
  | cons e rest ih =>
    intro i h
    match i with
    | 0 => simp
    | Nat.succ i' =>
      simp only [List.eraseIdx_cons_succ, List.length_cons]
      rw [ih i' (by simp only [List.length_cons] at h; omega)]

theorem claim_C8_rmdir (fs : FS) (f : String) (node : DirNode)
    (hcur : readBlock fs fs.cur = some (.dir node)) :
    (findEntryIdx f node.entries = none →
      jfs_rmdir fs f = (.error .eNotExists, fs)) ∧
    (∀ (idx : Nat) (ino : Inode), findEntryIdx f node.entries = some idx →
      readBlock fs (entryAt node.entries idx).block_num = some (.file ino) →
      jfs_rmdir fs f = (.error .eNotDir, fs)) ∧
    (∀ (idx : Nat) (dnode : DirNode), findEntryIdx f node.entries = some idx →
      readBlock fs (entryAt node.entries idx).block_num = some (.dir dnode) →
      0 < dnode.entries.length →
      jfs_rmdir fs f = (.error .eNotEmpty, fs)) ∧
    (∀ (idx : Nat), findEntryIdx f node.entries = some idx →
      readBlock fs (entryAt node.entries idx).block_num = some (.dir ⟨[]⟩) →
      jfs_rmdir fs f
        = (.ok (), { blocks := (assocSet fs.blocks fs.cur
                          (.dir ⟨node.entries.eraseIdx idx⟩)),
                     freeList := (fs.freeList
                       ++ [(entryAt node.entries idx).block_num]),
                     cur := fs.cur }) ∧
      node.entries.eraseIdx idx
        = node.entries.take idx ++ node.entries.drop (idx + 1) ∧
      (node.entries.eraseIdx idx).length + 1 = node.entries.length) := by
  refine ⟨?_, ?_, ?_, ?_⟩
  · intro hnone
    simp only [jfs_rmdir, hcur, Block.dirnodeOf, hnone]
  · intro idx ino hfind hino
    simp [jfs_rmdir, hcur, Block.dirnodeOf, hfind, is_dir, hino,
      Block.isDirTag]
  · intro idx dnode hfind hdir hpos
    simp [jfs_rmdir, hcur, Block.dirnodeOf, hfind, is_dir, hdir,
      Block.isDirTag, hpos]
  · intro idx hfind hdir
    have hidx := (findEntryIdx_lt f node.entries idx hfind).1
    refine ⟨?_, List.eraseIdx_eq_take_drop_succ node.entries idx, ?_⟩
    · simp [jfs_rmdir, hcur, Block.dirnodeOf, hfind, is_dir, hdir,
        Block.isDirTag, releaseBlock, writeBlock]
    · exact eraseIdx_length_succ node.entries idx hidx

/-- Claim C9: `stat(name)` fails `NotFound` when the name is absent;
otherwise it returns the name and the entry's handle, with
`file_size = 0` and `data_block_count = 0` for a directory, and
`data_block_count = ceil(file_size / BLOCK_SIZE)` for a file. -/
theorem claim_C9_stat (cfg : Config) (fs : FS) (name : String)
    (node : DirNode)
    (hbs : 0 < cfg.BLOCK_SIZE)
    (hcur : readBlock fs fs.cur = some (.dir node)) :
    (findEntryIdx name node.entries = none →
      jfs_stat cfg fs name = (.error .eNotExists, fs)) ∧
    (∀ (idx : Nat) (dnode : DirNode),
      findEntryIdx name node.entries = some idx →
      readBlock fs (entryAt node.entries idx).block_num = some (.dir dnode) →
      jfs_stat cfg fs name
        = (.ok ⟨name, (entryAt node.entries idx).block_num, true, 0, 0⟩,
            fs)) ∧
    (∀ (idx : Nat) (ino : Inode),
      findEntryIdx name node.entries = some idx →
      readBlock fs (entryAt node.entries idx).block_num = some (.file ino) →
      jfs_stat cfg fs name
        = (.ok ⟨name, (entryAt node.entries idx).block_num, false,
            ino.file_size, cdiv ino.file_size cfg.BLOCK_SIZE⟩, fs)) := by
  refine ⟨?_, ?_, ?_⟩
  · intro hnone
    simp only [jfs_stat, hcur, Block.dirnodeOf, hnone]
  · intro idx dnode hfind hdir
    simp [jfs_stat, hcur, Block.dirnodeOf, hfind, hdir, Block.isDirTag]
  · intro idx ino hfind hino
    simp only [jfs_stat, hcur, Block.dirnodeOf, hfind, hino, Block.isDirTag,
      Bool.false_eq_true, if_false, Block.inodeOf,
      stat_blocks_eq_cdiv cfg.BLOCK_SIZE ino.file_size hbs]

/-- Claim C10: a failing `chdir(name)` (absent name or non-directory
target) leaves the whole state unchanged, and even a successful one
writes, allocates and releases no block: only the cursor may change. -/
theorem claim_C10_chdir_frame (fs : FS) (name : String) :
    (jfs_chdir fs (some name)).2.blocks = fs.blocks ∧
    (jfs_chdir fs (some name)).2.freeList = fs.freeList ∧
    (∀ e : JfsErr, (jfs_chdir fs (some name)).1 = .error e →
      (jfs_chdir fs (some name)).2 = fs) := by
  have key : (jfs_chdir fs (some name)).2 = fs ∨
      ((jfs_chdir fs (some name)).1 = .ok ()
        ∧ ∃ t, (jfs_chdir fs (some name)).2 = { fs with cur := t }) := by
    cases hrb : readBlock fs fs.cur with
    | none =>
      left
      simp [jfs_chdir, hrb]
    | some curBlk =>
      cases hf : findEntryIdx name curBlk.dirnodeOf.entries with
      | none =>
        left
        simp [jfs_chdir, hrb, hf]
      | some idx =>
        by_cases hd : is_dir fs (entryAt curBlk.dirnodeOf.entries idx).block_num
        · right
          simp only [jfs_chdir, hrb, hf, if_pos hd]
          exact ⟨trivial, _, rfl⟩
        · left
          simp [jfs_chdir, hrb, hf, if_neg hd]
  rcases key with h | ⟨hok, t, h2⟩
  · rw [h]
    exact ⟨rfl, rfl, fun _ _ => rfl⟩
  · rw [h2]
    refine ⟨rfl, rfl, fun e he => ?_⟩
    rw [hok] at he
    exact absurd he (by simp)

/-! ## Concrete configuration and states for counterexamples and witnesses -/

/-- An example configuration: `BLOCK_SIZE = 4`, `MAX_NAME_LENGTH = 8`,
`MAX_DIR_ENTRIES = 8`, `MAX_DATA_BLOCKS = 4`, `MAX_FILE_SIZE = 16`
(the spec constraint `MAX_FILE_SIZE ≤ MAX_DATA_BLOCKS * BLOCK_SIZE`
holds). -/
def cfgEx : Config := ⟨4, 8, 8, 4, 16⟩

/-- A store with a single 2-byte file `"f"`: one partly-filled data block
at handle 3, and an exhausted free list. -/
def fsC3 : FS :=
  { blocks := [(1, .dir ⟨[⟨"f", 2⟩]⟩), (2, .file ⟨2, [3, 0, 0, 0]⟩),
               (3, .data [10, 11, 0, 0])],
    freeList := [], cur := 1 }

/-- A store with a single 5-byte file `"a"` spanning data blocks 3
(full) and 4 (one byte). -/
def fsEx : FS :=
  { blocks := [(1, .dir ⟨[⟨"a", 2⟩]⟩), (2, .file ⟨5, [3, 4, 0, 0]⟩),
               (3, .data [1, 2, 3, 4]), (4, .data [5, 0, 0, 0])],
    freeList := [], cur := 1 }

/-- The root directory node of `fsEx`. -/
def nodeEx : DirNode := ⟨[⟨"a", 2⟩]⟩

/-- A store with an empty subdirectory `"d"` (handle 5) and an empty file
`"x"` (handle 6) in the root. -/
def fsDir : FS :=
  { blocks := [(1, .dir ⟨[⟨"d", 5⟩, ⟨"x", 6⟩]⟩), (5, .dir ⟨[]⟩),
               (6, .file ⟨0, [0, 0, 0, 0]⟩)],
    freeList := [], cur := 1 }

/-- The root directory node of `fsDir`. -/
def nodeDir : DirNode := ⟨[⟨"d", 5⟩, ⟨"x", 6⟩]⟩

/-- Claim C3 fails on the code: appending 3 bytes to the 2-byte file
`"f"` with an empty free pool passes the `MAX_FILE_SIZE` check, releases
the file's existing last data block (handle 3, src line 618) before
allocating, then hits the exhaustion sentinel and returns `DiskFull` —
with the persisted inode still pointing (slot 0) at block 3, which was
released during the call and now sits in the free list. -/
theorem claim_C3_dangling_released_block :
    2 + 3 ≤ cfgEx.MAX_FILE_SIZE ∧
    (jfs_write cfgEx fsC3 "f" [7, 7, 7]).1 = .error .eDiskFull ∧
    readBlock (jfs_write cfgEx fsC3 "f" [7, 7, 7]).2 2
      = some (.file ⟨2, [3, 0, 0, 0]⟩) ∧
    (jfs_write cfgEx fsC3 "f" [7, 7, 7]).2.freeList = [3] := by
  decide

/-- Claim C4 fails on the code: with `BLOCK_SIZE = 4`, a file of 4 bytes
(one full block) and a 1-byte append pass the `MAX_FILE_SIZE` check and
need exactly one new block (`blocks_needed = 1`, the declared size of the
local array `data_block_nums`), yet the three loops run the index
`next_start_position = 1`, outside the bounds `[0, 1)`. -/
theorem claim_C4_index_out_of_bounds :
    4 + 1 ≤ cfgEx.MAX_FILE_SIZE ∧
    writeBlocksNeeded cfgEx 4 1 = 1 ∧
    writeIndexList cfgEx 4 1 = [1] ∧
    ¬ (∀ i ∈ writeIndexList cfgEx 4 1, i < writeBlocksNeeded cfgEx 4 1) := by
  decide


/-- Claim C2 fails on the code: the two-write append sequence it
describes, at its own highlighted alignment (`b1` spanning two data
blocks and ending mid-block), drives the second `jfs_write` into the
out-of-bounds scratch-array accesses of src lines 641/661/702.  Here
`creat "a"` then `write "a" [1,2,3,4,5]` is reached entirely through
in-bounds index arithmetic (the first write starts at
`next_start_position = 0`) and leaves a 5-byte file; the follow-up
`write "a" [6]` then has `blocks_needed = 1` — the declared size of the
local array `data_block_nums` — yet runs its loops at index
`next_start_position = 1`, outside `[0, 1)`, so the append the claim
asserts is not defined behavior of the C program on these inputs. -/
theorem claim_C2_second_write_scratch_overrun :
    (jfs_creat cfgEx (freshFS 4) "a").1 = .ok () ∧
    (∀ i ∈ writeIndexList cfgEx 0 5, i < writeBlocksNeeded cfgEx 0 5) ∧
    (jfs_write cfgEx (jfs_creat cfgEx (freshFS 4) "a").2 "a"
        [1, 2, 3, 4, 5]).1 = .ok () ∧
    readBlock (jfs_write cfgEx (jfs_creat cfgEx (freshFS 4) "a").2 "a"
        [1, 2, 3, 4, 5]).2 2 = some (.file ⟨5, [3, 4, 0, 0]⟩) ∧
    5 + 1 ≤ cfgEx.MAX_FILE_SIZE ∧
    writeBlocksNeeded cfgEx 5 1 = 1 ∧
    writeIndexList cfgEx 5 1 = [1] ∧
    ¬ (∀ i ∈ writeIndexList cfgEx 5 1, i < writeBlocksNeeded cfgEx 5 1) := by
  decide

/-! ## Witnesses -/

theorem claim_C1_round_trip_witness :
    0 < cfgEx.BLOCK_SIZE ∧
    cfgEx.MAX_FILE_SIZE ≤ cfgEx.MAX_DATA_BLOCKS * cfgEx.BLOCK_SIZE ∧
    0 < cfgEx.MAX_DIR_ENTRIES ∧
    String.length "a" ≤ cfgEx.MAX_NAME_LENGTH ∧
    List.length ([1, 2, 3, 4, 5] : List Nat) ≤ cfgEx.MAX_FILE_SIZE ∧
    cdiv (List.length ([1, 2, 3, 4, 5] : List Nat)) cfgEx.BLOCK_SIZE + 1 ≤ 3 ∧
    ((jfs_creat cfgEx (freshFS 3) "a").1 = .ok () ∧
      (jfs_write cfgEx (jfs_creat cfgEx (freshFS 3) "a").2 "a"
        [1, 2, 3, 4, 5]).1 = .ok () ∧
      (jfs_read cfgEx
          (jfs_write cfgEx (jfs_creat cfgEx (freshFS 3) "a").2 "a"
            [1, 2, 3, 4, 5]).2 "a"
          (List.length ([1, 2, 3, 4, 5] : List Nat))).1
        = .ok (List.length ([1, 2, 3, 4, 5] : List Nat), [1, 2, 3, 4, 5])) :=
  ⟨by decide, by decide, by decide, by decide, by decide, by decide,
    claim_C1_round_trip cfgEx "a" [1, 2, 3, 4, 5] 3 (by decide) (by decide)
      (by decide) (by decide) (by decide) (by decide)⟩

theorem claim_C5_file_too_large_witness :
    readBlock fsEx fsEx.cur = some (.dir nodeEx) ∧
    findEntryIdx "a" nodeEx.entries = some 0 ∧
    (entryAt nodeEx.entries 0).block_num = 2 ∧
    readBlock fsEx 2 = some (.file ⟨5, [3, 4, 0, 0]⟩) ∧
    cfgEx.MAX_FILE_SIZE
      < (Inode.mk 5 [3, 4, 0, 0]).file_size + (List.replicate 12 9).length ∧
    jfs_write cfgEx fsEx "a" (List.replicate 12 9)
      = (.error .eMaxFileSize, fsEx) ∧
    jfs_stat cfgEx (jfs_write cfgEx fsEx "a" (List.replicate 12 9)).2 "a"
      = jfs_stat cfgEx fsEx "a" :=
  have h := claim_C5_file_too_large cfgEx fsEx "a" (List.replicate 12 9)
    nodeEx 0 2 ⟨5, [3, 4, 0, 0]⟩ (by decide) (by decide) (by decide)
    (by decide) (by decide)
  ⟨by decide, by decide, by decide, by decide, by decide, h.1, h.2⟩

theorem claim_C6_read_witness :
    0 < cfgEx.BLOCK_SIZE ∧
    readBlock fsEx fsEx.cur = some (.dir nodeEx) ∧
    jfs_read cfgEx fsEx "a" 7
      = (.ok (min (List.length ([1, 2, 3, 4, 5] : List Nat)) 7,
          List.take (min (List.length ([1, 2, 3, 4, 5] : List Nat)) 7)
            [1, 2, 3, 4, 5]), fsEx) :=
  ⟨by decide, by decide,
    (claim_C6_read cfgEx fsEx "a" 7 nodeEx (by decide) (by decide)).2.2 0
      [1, 2, 3, 4, 5] [3, 4, 0, 0] (by decide) (by decide) (by decide)⟩

theorem claim_C7_remove_witness :
    readBlock fsEx fsEx.cur = some (.dir nodeEx) ∧
    (jfs_remove cfgEx fsEx "a").1 = .ok () ∧
    (jfs_remove cfgEx fsEx "a").2.freeList = [3, 4, 2] ∧
    (jfs_stat cfgEx (jfs_remove cfgEx fsEx "a").2 "a").1
      = .error .eNotExists :=
  have h := (claim_C7_remove cfgEx fsEx "a" nodeEx (by decide)).2.2 0
    ⟨5, [3, 4, 0, 0]⟩ (by decide) (by decide) (by decide)
  ⟨by decide, by rw [h.1], by rw [h.1]; decide, h.2⟩

theorem claim_C8_rmdir_witness :
    readBlock fsDir fsDir.cur = some (.dir nodeDir) ∧
    (jfs_rmdir fsDir "d").1 = .ok () ∧
    (jfs_rmdir fsDir "d").2.freeList = [5] ∧
    nodeDir.entries.eraseIdx 0
      = nodeDir.entries.take 0 ++ nodeDir.entries.drop 1 ∧
    (nodeDir.entries.eraseIdx 0).length + 1 = nodeDir.entries.length :=
  have h := (claim_C8_rmdir fsDir "d" nodeDir (by decide)).2.2.2 0
    (by decide) (by decide)
  ⟨by decide, by rw [h.1], by rw [h.1]; decide, h.2.1, h.2.2⟩

theorem claim_C9_stat_witness :
    0 < cfgEx.BLOCK_SIZE ∧
    readBlock fsEx fsEx.cur = some (.dir nodeEx) ∧
    (jfs_stat cfgEx fsEx "a").1 = .ok ⟨"a", 2, false, 5, 2⟩ ∧
    (jfs_stat cfgEx fsDir "d").1 = .ok ⟨"d", 5, true, 0, 0⟩ :=
  have h := (claim_C9_stat cfgEx fsEx "a" nodeEx (by decide) (by decide)).2.2
    0 ⟨5, [3, 4, 0, 0]⟩ (by decide) (by decide)
  have h2 := (claim_C9_stat cfgEx fsDir "d" nodeDir (by decide)
    (by decide)).2.1 0 ⟨[]⟩ (by decide) (by decide)
  ⟨by decide, by decide, by rw [h]; decide, by rw [h2]; decide⟩

theorem claim_C10_chdir_frame_witness :
    (jfs_chdir fsDir (some "x")).1 = .error .eNotDir ∧
    (jfs_chdir fsDir (some "x")).2 = fsDir ∧
    (jfs_chdir fsDir (some "zz")).1 = .error .eNotExists ∧
    (jfs_chdir fsDir (some "zz")).2 = fsDir :=
  ⟨by decide,
    (claim_C10_chdir_frame fsDir "x").2.2 .eNotDir (by decide),
    by decide,
    (claim_C10_chdir_frame fsDir "zz").2.2 .eNotExists (by decide)⟩

end Jfs
